import Mathlib

/-!
Verification of the azure-vm-utils `lpt` boot-analysis tool and its selftest
harness, shallowly embedded in Lean 4.

Embedded directly from the sources:
  - `src/selftest/selftest.py` : `device_sort` and its natural sort key;
  - `src/lpt/lpt/ssh.py`       : `SSH.fetch` and `SSH.connect_with_retries`,
    with the remote transport abstracted as an oracle from commands to
    completed processes;
  - `src/lpt/lpt/main.py`      : the frame selection of `main_graph`.

The repository modules `lpt/graph.py`, `lpt/analyze.py`, `lpt/cloudinit.py`,
`lpt/journal.py` and `lpt/systemd.py` are referenced by `main.py` but are not
part of the source tree given here; the corresponding definitions below are
modelled from the specification (sections 4.4, 4.5, 4.6 and 7) and are marked
as such in their doc comments.
-/

/- ===================================================================
   Part 1. selftest.py: device_sort (natural sort)
   =================================================================== -/

/-- Numeric value of a decimal digit character, as `int()` applied to a digit
run does digit by digit. -/
def digitVal (c : Char) : Nat := c.toNat - 48

/-- Value of a maximal decimal digit run, mirroring Python `int(text)` for a
string of digits (leading zeros allowed). -/
def valOf (ds : List Char) : Nat := ds.foldl (fun n c => 10 * n + digitVal c) 0

/-- Chunking of a string into the alternating structure produced by
`re.split("([0-9]+)", s)`: a leading non-digit part (possibly empty) followed
by pairs of (maximal digit run, following non-digit part).  The digit runs are
kept raw here; their numeric value is taken by `natural_sort_key`. -/
def natKeyChunks : List Char → List Char × List (List Char × List Char)
  | [] => ([], [])
  | c :: cs =>
    let k := natKeyChunks cs
    if c.isDigit then
      match k with
      | ([], (d, s) :: rest) => ([], (c :: d, s) :: rest)
      | (hd, ps) => ([], ([c], hd) :: ps)
    else
      (c :: k.1, k.2)

/-- The comparison type of a natural sort key: Python compares the key lists
(lexicographically, strings at even positions, integers at odd positions),
which on this alternating shape is the lexicographic order on a head string
paired with a list of (number, string) pairs. -/
abbrev NatKey := Lex (List Char × List (Lex (Nat × List Char)))

/-- `natural_sort_key` of selftest.py: turn a string into its chunk list,
digit runs taken as numbers.  For example "nvme0n10" becomes
("nvme", [(0, "n"), (10, "")]). -/
def natural_sort_key (s : String) : NatKey :=
  let k := natKeyChunks s.data
  toLex (k.1, k.2.map (fun p => toLex (valOf p.1, p.2)))

/-- The key order used by `device_sort`, as a boolean relation for sorting. -/
def natKeyLe (a b : String) : Bool := decide (natural_sort_key a ≤ natural_sort_key b)

/-- `device_sort` of selftest.py: stable sort of the device names by their
natural sort key (Python `sorted(devices, key=natural_sort_key)`). -/
def device_sort (devices : List String) : List String :=
  devices.mergeSort natKeyLe

theorem natKeyLe_trans (a b c : String) (hab : natKeyLe a b = true)
    (hbc : natKeyLe b c = true) : natKeyLe a c = true := by
  simp only [natKeyLe, decide_eq_true_iff] at *
  exact le_trans hab hbc

theorem natKeyLe_total (a b : String) : (natKeyLe a b || natKeyLe b a) = true := by
  simp only [natKeyLe, Bool.or_eq_true, decide_eq_true_iff]
  exact le_total _ _

/-- Claim C10: `device_sort` returns a permutation of its input ordered by the
natural sort key (digit runs compare numerically, so "nvme2n1" sorts before
"nvme10n1"), and it is idempotent. -/
theorem device_sort_spec (xs : List String) :
    (device_sort xs).Perm xs ∧
    (device_sort xs).Pairwise (fun a b => natural_sort_key a ≤ natural_sort_key b) ∧
    device_sort (device_sort xs) = device_sort xs ∧
    natural_sort_key "nvme2n1" < natural_sort_key "nvme10n1" := by
  have hpair : (device_sort xs).Pairwise (fun a b => natKeyLe a b = true) :=
    List.sorted_mergeSort natKeyLe_trans natKeyLe_total xs
  refine ⟨List.mergeSort_perm xs natKeyLe, ?_, ?_, by decide⟩
  · exact hpair.imp (fun h => by simpa [natKeyLe, decide_eq_true_iff] using h)
  · exact List.mergeSort_of_sorted hpair

/- ===================================================================
   Part 2. ssh.py: SSH.fetch and SSH.connect_with_retries
   =================================================================== -/

namespace SSHModel

/-- Result of running a remote command (`subprocess.CompletedProcess` as
produced by `SSH.run` with `capture_output=True`): an exit code and the
captured stdout bytes. -/
structure CompletedProcess where
  returncode : Int
  stdout : List Nat
deriving DecidableEq

/-- The remote transport boundary: `SSH.run` viewed as an oracle from the
command argument vector to a completed process.  The loops and channel
plumbing inside `SSH.run` are out of scope (spec section 1): the core consumes
it only as run a command, get stdout and exit code. -/
def Runner := List String → CompletedProcess

/-- A local file system mapping paths to file contents, for
`local_path.write_bytes`. -/
def FileSys := String → Option (List Nat)

/-- `local_path.write_bytes(data)`: the local file system with `path` now
holding `data`. -/
def writeBytes (fs : FileSys) (path : String) (data : List Nat) : FileSys :=
  fun p => if p = path then some data else fs p

/-- The one error `SSH.fetch` raises: `FileNotFoundError(2, "No such file or
directory")`, raised when the sudo fallback also exits non-zero. -/
inductive FetchError
  | fileNotFound
deriving DecidableEq

/-- `SSH.fetch` of ssh.py: run `cat remote_path`; on non-zero exit fall back
to `sudo cat remote_path`; if that also exits non-zero raise
`FileNotFoundError`, otherwise write the captured stdout to `local_path`.
Returns the outcome together with the resulting local file system. -/
def fetch (run : Runner) (remote_path local_path : String) (fs : FileSys) :
    Except FetchError Unit × FileSys :=
  let cmd := ["cat", remote_path]
  let proc := run cmd
  if proc.returncode ≠ 0 then
    let proc2 := run ("sudo" :: cmd)
    if proc2.returncode ≠ 0 then
      (Except.error FetchError.fileNotFound, fs)
    else
      (Except.ok (), writeBytes fs local_path proc2.stdout)
  else
    (Except.ok (), writeBytes fs local_path proc.stdout)

/-- Claim C7: `SSH.fetch` either fully succeeds, writing the complete fetched
byte content (the stdout of the plain `cat`, or of the `sudo cat` fallback) to
the local path, or raises `FileNotFoundError` after both the plain read and
the sudo fallback exit non-zero; on the failure path the local file system is
unchanged. -/
theorem fetch_spec (run : Runner) (remote_path local_path : String) (fs : FileSys) :
    ((run ["cat", remote_path]).returncode = 0 ∧
      fetch run remote_path local_path fs =
        (Except.ok (), writeBytes fs local_path (run ["cat", remote_path]).stdout)) ∨
    ((run ["cat", remote_path]).returncode ≠ 0 ∧
      (run ["sudo", "cat", remote_path]).returncode = 0 ∧
      fetch run remote_path local_path fs =
        (Except.ok (), writeBytes fs local_path (run ["sudo", "cat", remote_path]).stdout)) ∨
    ((run ["cat", remote_path]).returncode ≠ 0 ∧
      (run ["sudo", "cat", remote_path]).returncode ≠ 0 ∧
      fetch run remote_path local_path fs = (Except.error FetchError.fileNotFound, fs)) := by
  by_cases h1 : (run ["cat", remote_path]).returncode = 0
  · exact Or.inl ⟨h1, by simp [fetch, h1]⟩
  · by_cases h2 : (run ["sudo", "cat", remote_path]).returncode = 0
    · exact Or.inr (Or.inl ⟨h1, h2, by simp [fetch, h1, h2]⟩)
    · exact Or.inr (Or.inr ⟨h1, h2, by simp [fetch, h1, h2]⟩)

end SSHModel

namespace SSHModel

/-- The connection failures caught by `connect_with_retries` in ssh.py:
`AuthenticationException`, `BadHostKeyException`, `NoValidConnectionsError`,
`SSHException`, `TimeoutError`, `socket.error`. -/
inductive ConnFailure
  | auth
  | badHostKey
  | noValidConnections
  | sshError
  | timeoutError
  | socketError
deriving DecidableEq

/-- Outcome of one `self.connect()` attempt: success, or one of the caught
connection failures. -/
inductive ConnOutcome
  | success
  | failure (e : ConnFailure)
deriving DecidableEq

/-- The client-side connection state touched by `connect` and `close`:
whether the client, proxy socket, proxy transport and proxy client are
currently set (non-None). -/
structure ConnState where
  client : Bool
  proxy_sock : Bool
  transport : Bool
  proxy_client : Bool
deriving DecidableEq

/-- `SSH.close` of ssh.py: closes and clears the client, proxy socket,
transport and proxy client. -/
def ConnState.close (_ : ConnState) : ConnState :=
  ⟨false, false, false, false⟩

/-- State after a successful `connect`: the client is set (proxy fields stay
as the attempt left them; without a proxy host they are untouched). -/
def ConnState.afterConnect (s : ConnState) : ConnState :=
  { s with client := true }

/-- One loop iteration of `connect_with_retries` as observed at the boundary:
the outcome of the `self.connect()` attempt and the value of `time.time()` at
the retry check following a failure. -/
structure Attempt where
  outcome : ConnOutcome
  checkTime : Nat
deriving DecidableEq

/-- `SSH.connect_with_retries` of ssh.py.  `t0` is `time.time()` at entry, so
the budget is `timeout = timeout_seconds + t0`.  Each supplied `Attempt` is
one iteration of the `while True` loop: on success return `True`
immediately; on a caught failure `close()` the state, then retry while
`time.time() + retry_sleep < timeout`, else break and return `False`.
`none` means the supplied attempt trace was shorter than the loop ran. -/
def connect_with_retries (timeout_seconds : Nat) (retry_sleep : Nat) (t0 : Nat)
    (s : ConnState) : List Attempt → Option (Bool × ConnState)
  | [] => none
  | a :: rest =>
    match a.outcome with
    | ConnOutcome.success => some (true, s.afterConnect)
    | ConnOutcome.failure _ =>
      let s' := s.close
      if a.checkTime + retry_sleep < timeout_seconds + t0 then
        connect_with_retries timeout_seconds retry_sleep t0 s' rest
      else
        some (false, s')

/-- Whether an attempt is a failure whose retry check still falls inside the
budget `timeout_seconds + t0` (the loop retries after it). -/
def withinBudget (timeout_seconds retry_sleep t0 : Nat) (a : Attempt) : Prop :=
  (∃ e, a.outcome = ConnOutcome.failure e) ∧
    a.checkTime + retry_sleep < timeout_seconds + t0

theorem connect_with_retries_retry (timeout_seconds retry_sleep t0 : Nat)
    (s : ConnState) (a : Attempt) (rest : List Attempt)
    (hfail : ∃ e, a.outcome = ConnOutcome.failure e)
    (hin : a.checkTime + retry_sleep < timeout_seconds + t0) :
    connect_with_retries timeout_seconds retry_sleep t0 s (a :: rest) =
      connect_with_retries timeout_seconds retry_sleep t0 s.close rest := by
  obtain ⟨e, he⟩ := hfail
  simp [connect_with_retries, he, hin]

/-- Claim C9: `connect_with_retries` never propagates the caught connection
failures: whatever failures occur, it yields a boolean.  After any prefix of
failed attempts whose retry checks stay within the budget (each followed by a
`close()`), a successful attempt makes it return `True` at once; and a failed
attempt whose retry check exhausts the budget `timeout_seconds` from the start
makes it return `False` with the client state closed. -/
theorem connect_with_retries_spec (timeout_seconds retry_sleep t0 : Nat)
    (s : ConnState) (pre : List Attempt) (a : Attempt) (rest : List Attempt)
    (hpre : ∀ b ∈ pre, withinBudget timeout_seconds retry_sleep t0 b) :
    (a.outcome = ConnOutcome.success →
      ∃ s' : ConnState, s'.client = true ∧
        connect_with_retries timeout_seconds retry_sleep t0 s (pre ++ a :: rest) =
          some (true, s')) ∧
    ((∃ e, a.outcome = ConnOutcome.failure e) →
      ¬ a.checkTime + retry_sleep < timeout_seconds + t0 →
      connect_with_retries timeout_seconds retry_sleep t0 s (pre ++ a :: rest) =
        some (false, ConnState.close s)) := by
  induction pre generalizing s with
  | nil =>
    constructor
    · intro hs
      exact ⟨s.afterConnect, rfl, by simp [connect_with_retries, hs]⟩
    · rintro ⟨e, he⟩ hout
      simp [connect_with_retries, he, hout]
  | cons b pre ih =>
    have hb := hpre b (by simp)
    have hrest : ∀ x ∈ pre, withinBudget timeout_seconds retry_sleep t0 x :=
      fun x hx => hpre x (by simp [hx])
    have hstep := connect_with_retries_retry timeout_seconds retry_sleep t0 s b
      (pre ++ a :: rest) hb.1 hb.2
    constructor
    · intro hs
      obtain ⟨s', hcl, heq⟩ := (ih s.close hrest).1 hs
      exact ⟨s', hcl, by rw [List.cons_append, hstep, heq]⟩
    · intro hfail hout
      have heq := (ih s.close hrest).2 hfail hout
      rw [List.cons_append, hstep, heq]
      rfl

/-- Concrete instantiation of `connect_with_retries_spec`: one failed
authentication attempt whose retry check falls within the budget, followed by
a success: the loop returns `True`. -/
theorem connect_with_retries_spec_witness :
    ∃ s' : ConnState, s'.client = true ∧
      connect_with_retries 300 1 0 ⟨false, false, false, false⟩
        ([Attempt.mk (ConnOutcome.failure ConnFailure.auth) 10] ++
          Attempt.mk ConnOutcome.success 20 :: []) = some (true, s') := by
  have hpre : ∀ b ∈ [Attempt.mk (ConnOutcome.failure ConnFailure.auth) 10],
      withinBudget 300 1 0 b := by
    intro b hb
    simp only [List.mem_singleton] at hb
    subst hb
    exact ⟨⟨ConnFailure.auth, rfl⟩, by decide⟩
  exact (connect_with_retries_spec 300 1 0 ⟨false, false, false, false⟩
    [Attempt.mk (ConnOutcome.failure ConnFailure.auth) 10]
    (Attempt.mk ConnOutcome.success 20) [] hpre).1 rfl

end SSHModel

/- ===================================================================
   Part 3. main.py: frame selection in main_graph
   =================================================================== -/

namespace LptModel

/-- A cloud-init stage frame: a named half-open time interval (spec glossary).
The contents are irrelevant to `main_graph` frame selection; they are carried
opaquely. -/
structure Frame where
  label : String
  start : Nat
  stop : Nat
deriving DecidableEq

/-- A loaded cloud-init log, as far as `main_graph` consumes it: the frames
its `get_frames()` call produces.  `CloudInit.load` returns one such value per
boot, most recent boot last. -/
structure CloudInit where
  framesOfLog : List Frame
deriving DecidableEq

/-- `CloudInit.get_frames` viewed at the `main_graph` boundary. -/
def CloudInit.get_frames (c : CloudInit) : List Frame := c.framesOfLog

/-- The frame selection of `main_graph` in main.py: if the loaded cloud-init
list is non-empty take `cloudinits[-1]` (the most recent boot) and use its
frames, otherwise use no frames. -/
def mainGraphFrames : List CloudInit → List Frame
  | [] => []
  | c :: cs => (List.getLast (c :: cs) (by simp)).get_frames

/-- Claim C8: in graph mode the frames handed to the graph builder come only
from the last element of the loaded cloud-init list: appending the same most
recent log to any two histories of earlier boots yields the same frames, those
of that log alone; and an empty cloud-init list yields no frames. -/
theorem mainGraphFrames_spec (older older2 : List CloudInit) (latest : CloudInit) :
    mainGraphFrames [] = [] ∧
    mainGraphFrames (older ++ [latest]) = latest.get_frames ∧
    mainGraphFrames (older ++ [latest]) = mainGraphFrames (older2 ++ [latest]) := by
  have hlast : ∀ old : List CloudInit,
      mainGraphFrames (old ++ [latest]) = latest.get_frames := by
    intro old
    cases old with
    | nil => rfl
    | cons c cs =>
      rw [List.cons_append, mainGraphFrames]
      have h := List.getLast_concat (a := latest) (c :: cs)
      exact congrArg CloudInit.get_frames h
  exact ⟨rfl, hlast older, (hlast older).trans (hlast older2).symm⟩

end LptModel

/- ===================================================================
   Part 4. Dependency Graph Builder and Graph Renderer
   (modelled from the spec; lpt/graph.py is not in the source tree)
   =================================================================== -/

namespace LptModel

/-- Condition outcome of a unit, as reported by the service manager (spec
data model, `UnitNode.condition_result`). -/
inductive ConditionResult
  | ran
  | skippedConditionFalse
  | skippedOther
  | unknown
deriving DecidableEq

/-- Modelled from the spec: the `UnitNode` value of the data model (section
3), produced by the missing Systemd parser `lpt/systemd.py`: one unit with its
declared relation sets and condition result. -/
structure UnitNode where
  name : String
  wants : List String
  requires : List String
  after : List String
  before : List String
  condition_result : ConditionResult
deriving DecidableEq

/-- The unit snapshot mapping name to UnitNode, as an association list whose
entry order models the iteration order of the source dictionary. -/
abbrev UnitMap := List (String × UnitNode)

/-- Dictionary lookup on the snapshot: the entry with the given name. -/
def lookupUnit (n : String) : UnitMap → Option UnitNode
  | [] => none
  | (k, u) :: rest => if k = n then some u else lookupUnit n rest

/-- The relations followed by the breadth-first expansion (spec 4.5 step 2):
`requires`, `wants` and `after`. -/
def unitDeps (u : UnitNode) : List String := u.requires ++ u.wants ++ u.after

/-- Every name the snapshot can ever hand to the traversal: the unit names
plus every relation target.  Used as the finite bound for termination of the
breadth-first expansion. -/
def unitUniverse (units : UnitMap) : Finset String :=
  (units.map Prod.fst).toFinset ∪
    (units.map (fun p => unitDeps p.2)).flatten.toFinset

/-- The names a visited node hands to the worklist: none when the node is in
`exclude_services` (its own dependencies are not traversed, spec 4.5 step 2)
or missing from the snapshot, its followed relations otherwise. -/
def bfsDeps (units : UnitMap) (excl : List String) (n : String) : List String :=
  if n ∈ excl then []
  else
    match lookupUnit n units with
    | some u => unitDeps u
    | none => []

theorem lookupUnit_mem_universe {n : String} {units : UnitMap} {u : UnitNode}
    (h : lookupUnit n units = some u) : n ∈ unitUniverse units := by
  induction units with
  | nil => simp [lookupUnit] at h
  | cons p rest ih =>
    rw [lookupUnit] at h
    simp only [unitUniverse, List.map_cons, List.toFinset_cons, List.flatten,
      Finset.mem_union, List.mem_toFinset, Finset.mem_insert]
    by_cases hk : p.1 = n
    · exact Or.inl (Or.inl hk.symm)
    · rw [if_neg hk] at h
      have := ih h
      simp only [unitUniverse, Finset.mem_union, List.mem_toFinset] at this
      rcases this with h1 | h1
      · exact Or.inl (Or.inr h1)
      · exact Or.inr (by simp only [List.mem_append]; exact Or.inr h1)

theorem lookupUnit_deps_subset {n : String} {units : UnitMap} {u : UnitNode}
    (h : lookupUnit n units = some u) {d : String} (hd : d ∈ unitDeps u) :
    d ∈ unitUniverse units := by
  induction units with
  | nil => simp [lookupUnit] at h
  | cons p rest ih =>
    rw [lookupUnit] at h
    simp only [unitUniverse, List.map_cons, List.toFinset_cons, List.flatten,
      Finset.mem_union, List.mem_toFinset, Finset.mem_insert]
    by_cases hk : p.1 = n
    · rw [if_pos hk] at h
      obtain rfl : p.2 = u := Option.some_injective _ h
      exact Or.inr (by simp only [List.mem_append]; exact Or.inl hd)
    · rw [if_neg hk] at h
      have := ih h
      simp only [unitUniverse, Finset.mem_union, List.mem_toFinset] at this
      rcases this with h1 | h1
      · exact Or.inl (Or.inr h1)
      · exact Or.inr (by simp only [List.mem_append]; exact Or.inr h1)

theorem bfsDeps_of_not_mem {units : UnitMap} {excl : List String} {n : String}
    (hn : n ∉ unitUniverse units) : bfsDeps units excl n = [] := by
  rw [bfsDeps]
  by_cases he : n ∈ excl
  · simp [he]
  · rw [if_neg he]
    cases hl : lookupUnit n units with
    | none => rfl
    | some u => exact absurd (lookupUnit_mem_universe hl) hn

/-- Modelled from the spec: the breadth-first expansion of the Dependency
Graph Builder (section 4.5 step 2, the core of the missing `lpt/graph.py`).
The worklist is expanded node by node; a node already visited is not
re-expanded (visited-set guard), a node in `exclude_services` is kept but its
dependencies are not followed.  Termination holds for arbitrary snapshots,
cyclic ones included: each step either consumes a worklist entry or moves a
new name of the finite `unitUniverse` into the visited list. -/
def bfs (units : UnitMap) (excl : List String) (visited work : List String) :
    List String :=
  match work with
  | [] => visited
  | n :: rest =>
    if n ∈ visited then
      bfs units excl visited rest
    else
      bfs units excl (visited ++ [n]) (rest ++ bfsDeps units excl n)
termination_by ((unitUniverse units \ visited.toFinset).card, work.length)
decreasing_by
  · apply Prod.Lex.right
    simp
  · by_cases hn : n ∈ unitUniverse units
    · apply Prod.Lex.left
      have hsub : unitUniverse units \ (visited ++ [n]).toFinset ⊆
          unitUniverse units \ visited.toFinset := by
        apply Finset.sdiff_subset_sdiff (le_refl _)
        simp
      have hmem : n ∈ unitUniverse units \ visited.toFinset := by
        simp only [Finset.mem_sdiff, List.mem_toFinset]
        exact ⟨hn, by assumption⟩
      have hnot : n ∉ unitUniverse units \ (visited ++ [n]).toFinset := by
        simp
      exact Finset.card_lt_card ⟨hsub, fun hss => hnot (hss hmem)⟩
    · have heq : unitUniverse units \ (visited ++ [n]).toFinset =
          unitUniverse units \ visited.toFinset := by
        ext x
        simp only [Finset.mem_sdiff, List.toFinset_append, List.toFinset_cons,
          List.toFinset_nil, Finset.mem_union, List.mem_toFinset]
        constructor
        · rintro ⟨hx, hx2⟩
          exact ⟨hx, fun hc => hx2 (Or.inl hc)⟩
        · rintro ⟨hx, hx2⟩
          refine ⟨hx, fun hc => ?_⟩
          rcases hc with hc | hc
          · exact hx2 hc
          · simp only [insert_emptyc_eq, Finset.mem_singleton] at hc
            subst hc
            exact hn hx
      rw [heq]
      apply Prod.Lex.right
      rw [bfsDeps_of_not_mem hn]
      simp

/-- Edge kinds of the dependency graph (spec data model): `requirement` for
requires/wants relations, `ordering` for after relations. -/
inductive EdgeKind
  | ordering
  | requirement
deriving DecidableEq

/-- A directed edge of the dependency graph. -/
structure Edge where
  src : String
  dst : String
  kind : EdgeKind
deriving DecidableEq

/-- Modelled from the spec: the `DependencyGraph` value (section 3) produced
by the missing `lpt/graph.py`: the visited nodes with their condition results,
the discovered edges, and the cloud-init frames carried along purely as a
rendering annotation (spec 4.5 step 4: frames never affect topology). -/
structure DependencyGraph where
  nodes : List (String × ConditionResult)
  edges : List Edge
  frames : List Frame
deriving DecidableEq

/-- Condition result of a name under the snapshot; `unknown` for a name the
snapshot does not know. -/
def condResult (units : UnitMap) (n : String) : ConditionResult :=
  match lookupUnit n units with
  | some u => u.condition_result
  | none => ConditionResult.unknown

/-- Edges contributed by one expanded node (spec 4.5 step 2): `requirement`
edges to its requires/wants targets and `ordering` edges to its after targets;
none for a node in `exclude_services` (not traversed further) or absent from
the snapshot. -/
def nodeEdges (units : UnitMap) (excl : List String) (n : String) : List Edge :=
  if n ∈ excl then []
  else
    match lookupUnit n units with
    | some u =>
      (u.requires ++ u.wants).map (fun d => Edge.mk n d EdgeKind.requirement) ++
        u.after.map (fun d => Edge.mk n d EdgeKind.ordering)
    | none => []

/-- Whether a node survives step 3 of the build (spec 4.5): with
`exclude_conditional_skips` set, nodes whose condition result is
skipped-condition-false are dropped from the final set. -/
def keepNode (units : UnitMap) (exclude_conditional_skips : Bool) (n : String) : Bool :=
  !(exclude_conditional_skips &&
    decide (condResult units n = ConditionResult.skippedConditionFalse))

/-- Modelled from the spec: `build` of the Dependency Graph Builder (section
4.5, the missing `lpt/graph.py`).  Seeds the worklist with `root_services`,
expands breadth-first with the visited-set guard, collects the per-node edges
without duplicates, and applies the conditional-skip filter to nodes and the
edges touching them.  `frames` are carried to the renderer unchanged. -/
def build (root_services exclude_services : List String)
    (exclude_conditional_skips : Bool) (units : UnitMap) (frames : List Frame) :
    DependencyGraph :=
  let visited := bfs units exclude_services [] root_services
  let keep := keepNode units exclude_conditional_skips
  { nodes := (visited.filter keep).map (fun n => (n, condResult units n))
    edges := ((visited.map (nodeEdges units exclude_services)).flatten.dedup).filter
      (fun e => keep e.src && keep e.dst)
    frames := frames }

/-- Quote a node name for the output grammar, since unit names contain
characters special to it (spec 4.6). -/
def quoteName (n : String) : String := "\"" ++ n ++ "\""

/-- One node line of the rendered graph, conditionally-skipped nodes visually
distinguished (spec 4.6). -/
def renderNode (p : String × ConditionResult) : String :=
  if p.2 = ConditionResult.skippedConditionFalse then
    "  " ++ quoteName p.1 ++ " [color=gray];\n"
  else
    "  " ++ quoteName p.1 ++ ";\n"

/-- One edge line of the rendered graph, `ordering` edges visually
distinguished from `requirement` edges (spec 4.6). -/
def renderEdge (e : Edge) : String :=
  match e.kind with
  | EdgeKind.requirement =>
    "  " ++ quoteName e.src ++ " -> " ++ quoteName e.dst ++ ";\n"
  | EdgeKind.ordering =>
    "  " ++ quoteName e.src ++ " -> " ++ quoteName e.dst ++ " [style=dashed];\n"

/-- One frame annotation line (spec 4.5 step 4: purely for readability). -/
def renderFrame (f : Frame) : String :=
  "  // frame " ++ f.label ++ "\n"

/-- Sort key for node lines: lexicographic by name. -/
def nodeLe (a b : String × ConditionResult) : Bool := decide (a.1 ≤ b.1)

/-- Numeric code of an edge kind, for the edge sort key. -/
def kindNum : EdgeKind → Nat
  | EdgeKind.ordering => 0
  | EdgeKind.requirement => 1

/-- Sort key for edge lines, continued: lexicographic by source, destination
and kind. -/
def edgeLe (a b : Edge) : Bool :=
  decide (toLex (a.src, toLex (a.dst, kindNum a.kind)) ≤
    toLex (b.src, toLex (b.dst, kindNum b.kind)))

/-- Modelled from the spec: `render` of the Graph Renderer (section 4.6, the
missing `lpt/graph.py`): a textual directed-graph description with nodes and
edges emitted in a fixed lexicographic order (spec 4.5 determinism
requirement). -/
def render (g : DependencyGraph) : String :=
  let ns := g.nodes.mergeSort nodeLe
  let es := g.edges.mergeSort edgeLe
  "digraph systemd \x7b\n" ++
    String.join (g.frames.map renderFrame) ++
    String.join (ns.map renderNode) ++
    String.join (es.map renderEdge) ++
    "\x7d\n"

theorem bfsDeps_subset_universe {units : UnitMap} {excl : List String}
    {n x : String} (hx : x ∈ bfsDeps units excl n) : x ∈ unitUniverse units := by
  rw [bfsDeps] at hx
  by_cases he : n ∈ excl
  · simp [he] at hx
  · rw [if_neg he] at hx
    cases hl : lookupUnit n units with
    | none => rw [hl] at hx; simp at hx
    | some u =>
      rw [hl] at hx
      exact lookupUnit_deps_subset hl hx

theorem bfs_nodup (units : UnitMap) (excl : List String) :
    ∀ visited work : List String, visited.Nodup →
      (bfs units excl visited work).Nodup := by
  intro visited work
  induction visited, work using bfs.induct units excl with
  | case1 visited => intro h; rw [bfs]; exact h
  | case2 visited n rest hmem ih => intro h; rw [bfs, if_pos hmem]; exact ih h
  | case3 visited n rest hmem ih =>
    intro h
    rw [bfs, if_neg hmem]
    refine ih ?_
    simp [List.nodup_append, h, hmem]

theorem bfs_mem (units : UnitMap) (excl : List String) :
    ∀ visited work : List String, ∀ x, (x ∈ visited ∨ x ∈ work) →
      x ∈ bfs units excl visited work := by
  intro visited work
  induction visited, work using bfs.induct units excl with
  | case1 visited =>
    intro x hx
    rw [bfs]
    rcases hx with h | h
    · exact h
    · simp at h
  | case2 visited n rest hmem ih =>
    intro x hx
    rw [bfs, if_pos hmem]
    apply ih
    rcases hx with h | h
    · exact Or.inl h
    · rcases List.mem_cons.1 h with rfl | h2
      · exact Or.inl hmem
      · exact Or.inr h2
  | case3 visited n rest hmem ih =>
    intro x hx
    rw [bfs, if_neg hmem]
    apply ih
    rcases hx with h | h
    · exact Or.inl (by simp [h])
    · rcases List.mem_cons.1 h with rfl | h2
      · exact Or.inl (by simp)
      · exact Or.inr (by simp [h2])

theorem bfs_subset (units : UnitMap) (excl : List String) :
    ∀ visited work : List String, ∀ x, x ∈ bfs units excl visited work →
      x ∈ visited ∨ x ∈ work ∨ x ∈ unitUniverse units := by
  intro visited work
  induction visited, work using bfs.induct units excl with
  | case1 visited =>
    intro x hx
    rw [bfs] at hx
    exact Or.inl hx
  | case2 visited n rest hmem ih =>
    intro x hx
    rw [bfs, if_pos hmem] at hx
    rcases ih x hx with h | h | h
    · exact Or.inl h
    · exact Or.inr (Or.inl (by simp [h]))
    · exact Or.inr (Or.inr h)
  | case3 visited n rest hmem ih =>
    intro x hx
    rw [bfs, if_neg hmem] at hx
    rcases ih x hx with h | h | h
    · rcases List.mem_append.1 h with h2 | h2
      · exact Or.inl h2
      · simp only [List.mem_singleton] at h2
        subst h2
        exact Or.inr (Or.inl (by simp))
    · rcases List.mem_append.1 h with h2 | h2
      · exact Or.inr (Or.inl (by simp [h2]))
      · exact Or.inr (Or.inr (bfsDeps_subset_universe h2))
    · exact Or.inr (Or.inr h)

theorem bfs_congr (units1 units2 : UnitMap) (excl : List String)
    (hl : ∀ n, lookupUnit n units1 = lookupUnit n units2) :
    ∀ visited work : List String,
      bfs units1 excl visited work = bfs units2 excl visited work := by
  intro visited work
  induction visited, work using bfs.induct units1 excl with
  | case1 visited => rw [bfs, bfs]
  | case2 visited n rest hmem ih =>
    rw [bfs, bfs, if_pos hmem, if_pos hmem]
    exact ih
  | case3 visited n rest hmem ih =>
    rw [bfs, bfs, if_neg hmem, if_neg hmem]
    have hd : bfsDeps units1 excl n = bfsDeps units2 excl n := by
      rw [bfsDeps, bfsDeps, hl n]
    rw [← hd]
    exact ih

theorem build_congr (units1 units2 : UnitMap)
    (hl : ∀ n, lookupUnit n units1 = lookupUnit n units2)
    (roots excl : List String) (flag : Bool) (frames : List Frame) :
    build roots excl flag units1 frames = build roots excl flag units2 frames := by
  have hc : condResult units1 = condResult units2 := by
    funext n
    rw [condResult, condResult, hl n]
  have hk : keepNode units1 flag = keepNode units2 flag := by
    funext n
    rw [keepNode, keepNode, hc]
  have he : nodeEdges units1 excl = nodeEdges units2 excl := by
    funext n
    rw [nodeEdges, nodeEdges, hl n]
  simp only [build, bfs_congr units1 units2 excl hl, hc, hk, he]

theorem lookupUnit_eq_none_iff (n : String) (l : UnitMap) :
    lookupUnit n l = none ↔ n ∉ l.map Prod.fst := by
  induction l with
  | nil => simp [lookupUnit]
  | cons p rest ih =>
    rw [lookupUnit]
    by_cases hk : p.1 = n
    · simp [hk]
    · rw [if_neg hk, List.map_cons, List.mem_cons, ih]
      constructor
      · rintro h (h2 | h2)
        · exact hk h2.symm
        · exact h h2
      · intro h h2
        exact h (Or.inr h2)

theorem lookupUnit_eq_some_iff {l : UnitMap} (hnd : (l.map Prod.fst).Nodup)
    (n : String) (u : UnitNode) :
    lookupUnit n l = some u ↔ (n, u) ∈ l := by
  induction l with
  | nil => simp [lookupUnit]
  | cons p rest ih =>
    obtain ⟨k, v⟩ := p
    rw [List.map_cons, List.nodup_cons] at hnd
    rw [lookupUnit, List.mem_cons]
    by_cases hk : k = n
    · subst hk
      rw [if_pos rfl]
      simp only [Option.some_inj, Prod.mk.injEq]
      constructor
      · rintro rfl
        exact Or.inl ⟨trivial, rfl⟩
      · rintro (⟨-, rfl⟩ | h)
        · rfl
        · exact absurd (List.mem_map_of_mem Prod.fst h) hnd.1
    · rw [if_neg hk, ih hnd.2]
      constructor
      · exact Or.inr
      · rintro (h | h)
        · exact absurd (congrArg Prod.fst h).symm hk
        · exact h

theorem lookupUnit_perm {l1 l2 : UnitMap} (hperm : l1.Perm l2)
    (hnd : (l1.map Prod.fst).Nodup) (n : String) :
    lookupUnit n l1 = lookupUnit n l2 := by
  have hnd2 : (l2.map Prod.fst).Nodup := ((hperm.map Prod.fst).nodup_iff).1 hnd
  cases h : lookupUnit n l1 with
  | some u =>
    have hmem := (lookupUnit_eq_some_iff hnd n u).1 h
    exact ((lookupUnit_eq_some_iff hnd2 n u).2 (hperm.mem_iff.1 hmem)).symm
  | none =>
    have hno := (lookupUnit_eq_none_iff n l1).1 h
    symm
    rw [lookupUnit_eq_none_iff]
    intro hc
    exact hno (((hperm.map Prod.fst).mem_iff).2 hc)

/-- Claim C1: for every unit snapshot, cyclic requires/wants/after relations
included, the dependency graph build terminates (witnessed by `build` and
`bfs` being total Lean functions, whose termination measure is the finite name
universe of the snapshot) and each node is expanded at most once: the visited
list is duplicate-free, as are the produced graph node names, and the number
of visited nodes is bounded by the finite universe of names. -/
theorem build_terminates_visits_once (roots excl : List String) (flag : Bool)
    (units : UnitMap) (frames : List Frame) :
    (bfs units excl [] roots).Nodup ∧
    ((build roots excl flag units frames).nodes.map Prod.fst).Nodup ∧
    (bfs units excl [] roots).length ≤ (unitUniverse units ∪ roots.toFinset).card := by
  have hnd := bfs_nodup units excl [] roots List.nodup_nil
  refine ⟨hnd, ?_, ?_⟩
  · have hmap : ((build roots excl flag units frames).nodes.map Prod.fst) =
        (bfs units excl [] roots).filter (keepNode units flag) := by
      simp only [build, List.map_map]
      rw [show (Prod.fst ∘ fun n => (n, condResult units n)) = id from rfl, List.map_id]
    rw [hmap]
    exact hnd.filter _
  · have hsub : (bfs units excl [] roots).toFinset ⊆
        unitUniverse units ∪ roots.toFinset := by
      intro x hx
      rcases bfs_subset units excl [] roots x (List.mem_toFinset.1 hx) with h | h | h
      · simp at h
      · exact Finset.mem_union.2 (Or.inr (List.mem_toFinset.2 h))
      · exact Finset.mem_union.2 (Or.inl h)
    calc (bfs units excl [] roots).length
        = (bfs units excl [] roots).toFinset.card := (List.toFinset_card_of_nodup hnd).symm
      _ ≤ (unitUniverse units ∪ roots.toFinset).card := Finset.card_le_card hsub

/-- Claim C2: graph build and render are deterministic: permuting the
iteration order of the unit snapshot mapping (the only input with ambient
iteration order) leaves the rendered text byte-identical; all remaining
arguments being equal, the output is a fixed function of them with node and
edge lines emitted in lexicographic order. -/
theorem graph_build_render_deterministic (units1 units2 : UnitMap)
    (roots excl : List String) (flag : Bool) (frames : List Frame)
    (hperm : units1.Perm units2) (hnd : (units1.map Prod.fst).Nodup) :
    render (build roots excl flag units1 frames) =
      render (build roots excl flag units2 frames) := by
  rw [build_congr units1 units2 (lookupUnit_perm hperm hnd) roots excl flag frames]

/-- Concrete instantiation of `graph_build_render_deterministic`: a two-entry
snapshot listed in the two possible orders renders identically. -/
theorem graph_build_render_deterministic_witness :
    render (build ["a.service"] [] false
      [("a.service", UnitNode.mk "a.service" [] ["b.service"] [] [] ConditionResult.ran),
       ("b.service", UnitNode.mk "b.service" [] [] [] [] ConditionResult.ran)] []) =
    render (build ["a.service"] [] false
      [("b.service", UnitNode.mk "b.service" [] [] [] [] ConditionResult.ran),
       ("a.service", UnitNode.mk "a.service" [] ["b.service"] [] [] ConditionResult.ran)] []) :=
  graph_build_render_deterministic _ _ ["a.service"] [] false []
    (List.Perm.swap _ _ [])
    (by simp)

/-- Claim C4: requesting a root service name not present in the unit snapshot
is not an error: the build returns a graph with exactly one node, the
requested root (with unknown condition result), and zero edges. -/
theorem build_missing_root (r : String) (excl : List String) (flag : Bool)
    (units : UnitMap) (frames : List Frame) (h : lookupUnit r units = none) :
    build [r] excl flag units frames =
      { nodes := [(r, ConditionResult.unknown)], edges := [], frames := frames } := by
  have hd : bfsDeps units excl r = [] := by
    rw [bfsDeps]
    by_cases he : r ∈ excl
    · simp [he]
    · simp [he, h]
  have hbfs : bfs units excl [] [r] = [r] := by
    rw [bfs]
    rw [if_neg (List.not_mem_nil r)]
    rw [hd]
    simp only [List.nil_append, List.append_nil]
    rw [bfs]
  have hcond : condResult units r = ConditionResult.unknown := by
    rw [condResult, h]
  have hedges : nodeEdges units excl r = [] := by
    rw [nodeEdges]
    by_cases he : r ∈ excl
    · simp [he]
    · simp [he, h]
  simp [build, hbfs, keepNode, hcond, hedges]

/-- Concrete instantiation of `build_missing_root`: an empty snapshot and the
root "absent.service". -/
theorem build_missing_root_witness :
    build ["absent.service"] [] false [] [] =
      { nodes := [("absent.service", ConditionResult.unknown)], edges := [],
        frames := [] } :=
  build_missing_root "absent.service" [] false [] [] rfl

/-- Claim C6: `build` accepts a list of root service names and seeds the node
set with all of them: every requested root (not dropped by the
conditional-skip filter) appears among the produced graph node names, so a
graph can be built from more than one root service in a single invocation. -/
theorem build_seeds_all_roots (roots excl : List String) (flag : Bool)
    (units : UnitMap) (frames : List Frame) (r : String) (hr : r ∈ roots)
    (hc : flag = false ∨ condResult units r ≠ ConditionResult.skippedConditionFalse) :
    r ∈ (build roots excl flag units frames).nodes.map Prod.fst := by
  have hvis : r ∈ bfs units excl [] roots := bfs_mem units excl [] roots r (Or.inr hr)
  have hkeep : keepNode units flag r = true := by
    rw [keepNode]
    rcases hc with rfl | hne
    · simp
    · simp [hne]
  have h1 : r ∈ (bfs units excl [] roots).filter (keepNode units flag) :=
    List.mem_filter.2 ⟨hvis, hkeep⟩
  have h2 : (r, condResult units r) ∈ (build roots excl flag units frames).nodes :=
    List.mem_map_of_mem (fun n => (n, condResult units n)) h1
  exact List.mem_map_of_mem Prod.fst h2

/-- Concrete instantiation of `build_seeds_all_roots`: two roots in one
invocation, the second of which appears in the produced node names. -/
theorem build_seeds_all_roots_witness :
    "b.service" ∈ (build ["a.service", "b.service"] [] false [] []).nodes.map
      Prod.fst :=
  build_seeds_all_roots ["a.service", "b.service"] [] false [] [] "b.service"
    (by simp) (Or.inl rfl)

end LptModel

/- ===================================================================
   Part 5. Event Timeline Assembler and partial-failure policy
   (modelled from the spec; lpt/analyze.py is not in the source tree)
   =================================================================== -/

namespace LptModel

/-- The closed taxonomy of semantic event kinds (spec glossary). -/
inductive EventKind
  | bootMilestone
  | serviceStart
  | serviceFailed
  | serviceStop
  | cloudinitStageStart
  | cloudinitStageEnd
deriving DecidableEq

/-- A classified event (spec data model): a normalized instant (none when the
monotonic-only timestamp had no reference point), its kind, its boot sequence
number (0 = most recent) and the service/unit/stage name. -/
structure ClassifiedEvent where
  instant : Option Nat
  kind : EventKind
  boot_id : Nat
  subject : String
deriving DecidableEq

/-- Timeline ordering (spec 4.4): instants ascending; events with unknown
instant sort last, preserving source-local order among themselves (the sort
being stable). -/
def instantLe (a b : ClassifiedEvent) : Bool :=
  match a.instant, b.instant with
  | some x, some y => decide (x ≤ y)
  | some _, none => true
  | none, some _ => false
  | none, none => true

/-- The report value produced by the analysis: the ordered retained events. -/
structure EventData where
  events : List ClassifiedEvent
deriving DecidableEq

/-- Modelled from the spec: `analyze_events` of the missing `lpt/analyze.py`
(spec 4.4, the Event Timeline Assembler), taking the classified events of each
source: merge all sources, restrict to boot 0 when the current-boot-only flag
is set, order by instant (stable merge sort, unknown instants last), then
apply the event-kind filter last — an empty filter list means no
restriction. -/
def analyze_events (journals cloudinits systemdEvents : List ClassifiedEvent)
    (boot : Bool) (event_types : List EventKind) : EventData :=
  let merged := cloudinits ++ journals ++ systemdEvents
  let merged := if boot then merged.filter (fun e => decide (e.boot_id = 0)) else merged
  let ordered := merged.mergeSort instantLe
  let retained := if event_types.isEmpty then ordered
    else ordered.filter (fun e => decide (e.kind ∈ event_types))
  ⟨retained⟩

/-- Claim C3: with an empty event-type filter every classified event is
retained (the output is a permutation, namely the time-ordering, of the whole
merged and boot-filtered input), and with a non-empty filter exactly the
events whose kind is in the filter are retained, the filter being applied
last, after ordering. -/
theorem analyze_events_filter_spec (journals cloudinits systemdEvents :
    List ClassifiedEvent) (boot : Bool) (event_types : List EventKind) :
    ((analyze_events journals cloudinits systemdEvents boot []).events).Perm
      (if boot then
        (cloudinits ++ journals ++ systemdEvents).filter (fun e => decide (e.boot_id = 0))
      else cloudinits ++ journals ++ systemdEvents) ∧
    (event_types ≠ [] →
      (analyze_events journals cloudinits systemdEvents boot event_types).events =
        (analyze_events journals cloudinits systemdEvents boot []).events.filter
          (fun e => decide (e.kind ∈ event_types))) := by
  constructor
  · simp only [analyze_events, List.isEmpty_nil, if_true]
    exact List.mergeSort_perm _ _
  · intro hne
    have hempty : event_types.isEmpty = false := by
      cases event_types with
      | nil => exact absurd rfl hne
      | cons a l => rfl
    simp only [analyze_events, hempty, List.isEmpty_nil, if_true, if_false,
      Bool.false_eq_true]

/-- Concrete instantiation of `analyze_events_filter_spec`: a non-empty filter
list retains exactly the events of the listed kinds. -/
theorem analyze_events_filter_spec_witness :
    ([EventKind.serviceStart] ≠ ([] : List EventKind)) ∧
    (analyze_events [] [] [] false [EventKind.serviceStart]).events =
      (analyze_events [] [] [] false []).events.filter
        (fun e => decide (e.kind ∈ [EventKind.serviceStart])) :=
  ⟨by simp,
    (analyze_events_filter_spec [] [] [] false [EventKind.serviceStart]).2 (by simp)⟩

end LptModel

namespace LptModel

/-- Input-source errors (spec section 7): one source is unusable. -/
inductive SourceError
  | unreadableJournal
  | unitQueryFailed
  | unreadableCloudInit
deriving DecidableEq

/-- The fatal abort reserved for the case where nothing was usable (spec
section 7: fatal aborts are reserved for zero usable sources and zero usable
explicit flags). -/
inductive FatalAbort
  | nothingToReport
deriving DecidableEq

/-- Events contributed by one source: an unusable source contributes zero
events (spec section 7 policy). -/
def sourceEvents : Except SourceError (List ClassifiedEvent) → List ClassifiedEvent
  | Except.error _ => []
  | Except.ok evs => evs

/-- Whether a source loaded successfully. -/
def sourceOk : Except SourceError (List ClassifiedEvent) → Bool
  | Except.error _ => false
  | Except.ok _ => true

/-- Modelled from the spec: the analysis entry point around `analyze_events`
(spec section 7 error-handling policy; in the repository this behaviour lives
in the missing loaders and `lpt/analyze.py` called from `main_analyze` of
main.py).  Each source either loaded or failed with its input-source error;
the analysis proceeds with the remaining sources, each unusable source
contributing zero events, and aborts only when no source and no explicit flag
was usable. -/
def main_analyze (cloudinitSrc journalSrc systemdSrc :
    Except SourceError (List ClassifiedEvent))
    (explicitFlagsUsable : Bool) (boot : Bool) (event_types : List EventKind) :
    Except FatalAbort EventData :=
  if sourceOk cloudinitSrc || sourceOk journalSrc || sourceOk systemdSrc ||
      explicitFlagsUsable then
    Except.ok (analyze_events (sourceEvents journalSrc) (sourceEvents cloudinitSrc)
      (sourceEvents systemdSrc) boot event_types)
  else
    Except.error FatalAbort.nothingToReport

/-- Claim C5: when an input source is unusable the analysis still completes,
computing the report from the remaining sources with the unusable source
contributing zero events; the tool aborts only when no source and no explicit
flag was usable. -/
theorem main_analyze_partial_failure (cloudinitSrc journalSrc systemdSrc :
    Except SourceError (List ClassifiedEvent))
    (explicitFlagsUsable boot : Bool) (event_types : List EventKind) :
    ((sourceOk cloudinitSrc || sourceOk journalSrc || sourceOk systemdSrc ||
        explicitFlagsUsable) = true →
      main_analyze cloudinitSrc journalSrc systemdSrc explicitFlagsUsable boot
          event_types =
        Except.ok (analyze_events (sourceEvents journalSrc)
          (sourceEvents cloudinitSrc) (sourceEvents systemdSrc) boot event_types)) ∧
    ((sourceOk cloudinitSrc || sourceOk journalSrc || sourceOk systemdSrc ||
        explicitFlagsUsable) = false →
      main_analyze cloudinitSrc journalSrc systemdSrc explicitFlagsUsable boot
          event_types = Except.error FatalAbort.nothingToReport) ∧
    (∀ err : SourceError, sourceEvents (Except.error err) = []) := by
  refine ⟨fun h => ?_, fun h => ?_, fun _ => rfl⟩
  · rw [main_analyze, if_pos h]
  · rw [main_analyze, if_neg (by rw [h]; exact Bool.false_ne_true)]

/-- Concrete instantiation of `main_analyze_partial_failure`: the journal is
unreadable but cloud-init loaded, so the analysis completes with the journal
contributing zero events. -/
theorem main_analyze_partial_failure_witness :
    (sourceOk (Except.ok ([] : List ClassifiedEvent)) ||
      sourceOk (Except.error SourceError.unreadableJournal) ||
      sourceOk (Except.error SourceError.unitQueryFailed) || false) = true ∧
    main_analyze (Except.ok []) (Except.error SourceError.unreadableJournal)
        (Except.error SourceError.unitQueryFailed) false false [] =
      Except.ok (analyze_events
        (sourceEvents (Except.error SourceError.unreadableJournal))
        (sourceEvents (Except.ok []))
        (sourceEvents (Except.error SourceError.unitQueryFailed)) false []) :=
  ⟨rfl,
    (main_analyze_partial_failure (Except.ok []) (Except.error SourceError.unreadableJournal)
      (Except.error SourceError.unitQueryFailed) false false []).1 rfl⟩

end LptModel
